import Mathlib

/-!
Verification development for the mutation-events polyfill
(src/unnamed/part_000).  The polyfill translates batched
MutationObserver change records into synthetic legacy Mutation Events
(DOMNodeInserted, DOMNodeRemoved, DOMSubtreeModified, ...), manages a
refcounted registry of observers keyed by observation root, and
monkeypatches addEventListener/removeEventListener.

The embedding below follows the source function by function:
  - dispatchMutationEvent   (source lines 42-59)
  - walk                    (source lines 61-66), modelled by the
                            walkOrder field of DomEnv
  - handleMutations         (source lines 71-116)
  - getRootElement          (source lines 118-128)
  - enableMutationEventPolyfill / disableMutationEventPolyfill
                            (source lines 135-162)
  - getAugmentedListener and the monkeypatched
    addEventListener / removeEventListener (source lines 164-195)
  - the installation guard  (source lines 18-28)

DOM nodes are abstract (a type with decidable equality); the read-only
DOM facilities the source consults (getAttribute, textContent, the
TreeWalker traversal, getRootNode, parent and shadow-host links) are
supplied as explicit environment parameters.
-/

namespace MutationEventsPolyfill

/-- The six legacy event names (source lines 30-37; a JS Set used only
for membership tests, so a list with contains is a faithful model). -/
def mutationEventsList : List String :=
  ["DOMCharacterDataModified",
   "DOMNodeInserted",
   "DOMNodeInsertedIntoDocument",
   "DOMNodeRemoved",
   "DOMNodeRemovedFromDocument",
   "DOMSubtreeModified"]

/-- Suffix appended to every internally dispatched event type
(source line 40). -/
def polyfillEventNameExtension : String := "Polyfilled"

/-- Option object passed to dispatchMutationEvent.  Only the fields
actually supplied at some call site of the source appear; a field is
none when the caller leaves it out of the object literal.  JS
Object.assign overwrites base fields with supplied ones, modelled by
getD against the base value. -/
structure DispatchOptions (Node : Type) where
  bubbles : Option Bool
  prevValue : Option (Option String)
  newValue : Option String
  attributeName : Option String
deriving DecidableEq, Repr

/-- The empty options object. -/
def noOverrides {Node : Type} : DispatchOptions Node :=
  ⟨none, none, none, none⟩

/-- The options literal of the attributes branch (source line 81). -/
def attributeNameOverride {Node : Type} (name : String) : DispatchOptions Node :=
  ⟨none, none, none, some name⟩

/-- The options literal of the characterData branch (source line 84). -/
def characterDataOverride {Node : Type} (prev : Option String) (new : String) :
    DispatchOptions Node :=
  ⟨none, some prev, some new, none⟩

/-- The non-bubbling options literal (source lines 99, 102, 109). -/
def noBubblesOverride {Node : Type} : DispatchOptions Node :=
  ⟨some false, none, none, none⟩

/-- A synthetic event as built and dispatched by dispatchMutationEvent:
the observable fields the source sets on the Event object, plus the
dispatch site and the optional fake target.  The attributeName entry of
the options object is NOT copied to the event (the JS Event constructor
ignores unknown keys and source lines 51-54 copy only attrChange,
newValue, prevValue and relatedNode), so it does not appear here. -/
structure SynthEvent (Node : Type) where
  eventType : String
  dispatchTarget : Node
  bubbles : Bool
  cancelable : Bool
  attrChange : Nat
  newValue : String
  prevValue : Option String
  relatedNode : Option Node
  fakeTarget : Option Node
deriving DecidableEq, Repr

/-- Model of dispatchMutationEvent (source lines 45-59): merge the
options over baseEventObj (source lines 42-44: attrChange 0,
bubbles true, cancelable false, newValue and prevValue empty,
relatedNode null), append the private suffix to the type, and record
the fake target when supplied. -/
def dispatchMutationEvent {Node : Type} (type : String) (target : Node)
    (options : Option (DispatchOptions Node)) (fakeTarget : Option Node) :
    SynthEvent Node :=
  let o := options.getD noOverrides
  { eventType := type ++ polyfillEventNameExtension
    dispatchTarget := target
    bubbles := o.bubbles.getD true
    cancelable := false
    attrChange := 0
    newValue := o.newValue.getD ""
    prevValue := o.prevValue.getD (some "")
    relatedNode := none
    fakeTarget := fakeTarget }

/-- The fullEventName computed by getAugmentedListener
(source lines 166-176): legacy names get the private suffix, other
names pass through. -/
def getAugmentedListenerFullName (eventName : String) : String :=
  if mutationEventsList.contains eventName then
    eventName ++ polyfillEventNameExtension
  else eventName

/-- The event type a caller-supplied listener observes when the wrapper
installed by getAugmentedListener (source lines 169-173) receives an
event of the given dispatched type: for a legacy subscription the
wrapper redefines type to the subscribed name; otherwise the listener
is passed through and sees the dispatched type unchanged. -/
def augmentedListenerObservedType (eventName : String) (dispatchedType : String) :
    String :=
  if mutationEventsList.contains eventName then eventName else dispatchedType

/-- C4: for every one of the six legacy event names, the internally
dispatched event type is the legacy name plus the private suffix
(which is exactly the full name the wrapper is registered under), and
the wrapper rewrites the delivered type back to the subscribed name, so
suffix-then-strip is the identity on the type observed by the caller's
listener. -/
theorem c4_suffix_strip_identity {Node : Type} (name : String) (target : Node)
    (options : Option (DispatchOptions Node)) (fakeTarget : Option Node)
    (h : name ∈ mutationEventsList) :
    (dispatchMutationEvent name target options fakeTarget).eventType
        = getAugmentedListenerFullName name
    ∧ augmentedListenerObservedType name
        (dispatchMutationEvent name target options fakeTarget).eventType = name := by
  constructor
  · simp [dispatchMutationEvent, getAugmentedListenerFullName, h]
  · simp [augmentedListenerObservedType, dispatchMutationEvent, h]

/-- Witness for C4 at the concrete name DOMNodeInserted. -/
theorem c4_witness :
    (dispatchMutationEvent "DOMNodeInserted" (0 : Nat) none none).eventType
        = getAugmentedListenerFullName "DOMNodeInserted"
    ∧ augmentedListenerObservedType "DOMNodeInserted"
        (dispatchMutationEvent "DOMNodeInserted" (0 : Nat) none none).eventType
        = "DOMNodeInserted" :=
  c4_suffix_strip_identity "DOMNodeInserted" 0 none none (by decide)

/-- The kind field of a MutationObserver change record. -/
inductive MutationType where
  | attributes
  | characterData
  | childList
deriving DecidableEq, Repr

/-- A MutationObserver change record as consumed by handleMutations:
target, kind, added and removed node sequences, attribute name and old
value (null modelled as none). -/
structure MutationRecord (Node : Type) where
  type : MutationType
  target : Node
  addedNodes : List Node
  removedNodes : List Node
  attributeName : String
  oldValue : Option String
deriving DecidableEq, Repr

/-- Read-only DOM facilities consulted while a batch is processed:
getAttribute and textContent reflect the DOM state at callback time;
walkOrder n is the TreeWalker traversal of source lines 61-66 (n itself
followed by its descendants in document order); isConnected is the DOM
connectivity predicate, which handleMutations never reads (source
lines 86-111 dispatch DOMNodeRemovedFromDocument and
DOMNodeInsertedIntoDocument without consulting it). -/
structure DomEnv (Node : Type) where
  getAttribute : Node → String → Option String
  textContent : Node → String
  walkOrder : Node → List Node
  isConnected : Node → Bool

/-- One step of the mutations.forEach loop of handleMutations (source
lines 73-112): the accumulator carries the events dispatched so far (in
dispatch order) and the subtreeModified array of marked nodes.  Every
push to either list mirrors a dispatchMutationEvent call or a
subtreeModified.push of the source, in source order. -/
def handleMutationsStep {Node : Type} [DecidableEq Node] (env : DomEnv Node)
    (acc : List (SynthEvent Node) × List Node) (mutation : MutationRecord Node) :
    List (SynthEvent Node) × List Node :=
  let events := acc.1
  let subtreeModified := acc.2
  let target := mutation.target
  match mutation.type with
  | .attributes =>
      if mutation.oldValue = none ∨ env.getAttribute target mutation.attributeName = none then
        (events ++ [dispatchMutationEvent "DOMSubtreeModified" target
            (some (attributeNameOverride mutation.attributeName)) none],
         subtreeModified)
      else (events, subtreeModified)
  | .characterData =>
      (events ++ [dispatchMutationEvent "DOMCharacterDataModified" target
          (some (characterDataOverride mutation.oldValue (env.textContent target))) none],
       subtreeModified ++ [target])
  | .childList =>
      let removedEvents := mutation.removedNodes.flatMap (fun n =>
        [dispatchMutationEvent "DOMNodeRemoved" n none none,
         dispatchMutationEvent "DOMNodeRemoved" target none (some n)]
        ++ (env.walkOrder n).map (fun node =>
             dispatchMutationEvent "DOMNodeRemovedFromDocument" node
               (some noBubblesOverride) none)
        ++ [dispatchMutationEvent "DOMNodeRemovedFromDocument" target
             (some noBubblesOverride) (some n)])
      let addedEvents := mutation.addedNodes.flatMap (fun n =>
        dispatchMutationEvent "DOMNodeInserted" n none none
        :: (env.walkOrder n).map (fun node =>
             dispatchMutationEvent "DOMNodeInsertedIntoDocument" node
               (some noBubblesOverride) none))
      (events ++ removedEvents ++ addedEvents,
       subtreeModified
         ++ mutation.removedNodes.map (fun _ => target)
         ++ mutation.addedNodes.map (fun _ => target))

/-- The forEach loop of handleMutations, as structural recursion over
the batch with the accumulator of handleMutationsStep. -/
def handleMutationsGo {Node : Type} [DecidableEq Node] (env : DomEnv Node) :
    List (MutationRecord Node) → List (SynthEvent Node) × List Node →
    List (SynthEvent Node) × List Node
  | [], acc => acc
  | m :: rest, acc => handleMutationsGo env rest (handleMutationsStep env acc m)

/-- Model of handleMutations (source lines 71-116): process the batch
record by record, then dispatch one DOMSubtreeModified per entry of the
subtreeModified array, in push order.  The returned list is the full
dispatch sequence of the callback. -/
def handleMutations {Node : Type} [DecidableEq Node] (env : DomEnv Node)
    (mutations : List (MutationRecord Node)) : List (SynthEvent Node) :=
  let result := handleMutationsGo env mutations ([], [])
  result.1 ++ result.2.map (fun touchedNode =>
    dispatchMutationEvent "DOMSubtreeModified" touchedNode none none)

/-- The events dispatched while one record is classified (the
dispatchMutationEvent calls of source lines 77-110, in source order),
as a standalone function of the record. -/
def recordEvents {Node : Type} [DecidableEq Node] (env : DomEnv Node)
    (mutation : MutationRecord Node) : List (SynthEvent Node) :=
  let target := mutation.target
  match mutation.type with
  | .attributes =>
      if mutation.oldValue = none ∨ env.getAttribute target mutation.attributeName = none then
        [dispatchMutationEvent "DOMSubtreeModified" target
          (some (attributeNameOverride mutation.attributeName)) none]
      else []
  | .characterData =>
      [dispatchMutationEvent "DOMCharacterDataModified" target
        (some (characterDataOverride mutation.oldValue (env.textContent target))) none]
  | .childList =>
      mutation.removedNodes.flatMap (fun n =>
        [dispatchMutationEvent "DOMNodeRemoved" n none none,
         dispatchMutationEvent "DOMNodeRemoved" target none (some n)]
        ++ (env.walkOrder n).map (fun node =>
             dispatchMutationEvent "DOMNodeRemovedFromDocument" node
               (some noBubblesOverride) none)
        ++ [dispatchMutationEvent "DOMNodeRemovedFromDocument" target
             (some noBubblesOverride) (some n)])
      ++ mutation.addedNodes.flatMap (fun n =>
        dispatchMutationEvent "DOMNodeInserted" n none none
        :: (env.walkOrder n).map (fun node =>
             dispatchMutationEvent "DOMNodeInsertedIntoDocument" node
               (some noBubblesOverride) none))

/-- The entries one record pushes onto the subtreeModified array
(source lines 85, 88 and 105): the target once per characterData
record, and once per removed and per added child of a childList
record; attributes records push nothing. -/
def recordMarks {Node : Type} (mutation : MutationRecord Node) : List Node :=
  match mutation.type with
  | .attributes => []
  | .characterData => [mutation.target]
  | .childList =>
      mutation.removedNodes.map (fun _ => mutation.target)
      ++ mutation.addedNodes.map (fun _ => mutation.target)

/-- One loop step appends exactly the events and marks of the record. -/
theorem handleMutationsStep_spec {Node : Type} [DecidableEq Node] (env : DomEnv Node)
    (acc : List (SynthEvent Node) × List Node) (m : MutationRecord Node) :
    handleMutationsStep env acc m
      = (acc.1 ++ recordEvents env m, acc.2 ++ recordMarks m) := by
  rcases m with ⟨ty, target, added, removed, name, oldValue⟩
  cases ty
  · by_cases h : oldValue = none ∨ env.getAttribute target name = none
    · simp [handleMutationsStep, recordEvents, recordMarks, h]
    · simp [handleMutationsStep, recordEvents, recordMarks, h]
  · simp [handleMutationsStep, recordEvents, recordMarks]
  · simp [handleMutationsStep, recordEvents, recordMarks]

/-- The whole loop appends the concatenated per-record events and
marks to the initial accumulator. -/
theorem handleMutationsGo_spec {Node : Type} [DecidableEq Node] (env : DomEnv Node)
    (ms : List (MutationRecord Node)) (acc : List (SynthEvent Node) × List Node) :
    handleMutationsGo env ms acc
      = (acc.1 ++ ms.flatMap (recordEvents env), acc.2 ++ ms.flatMap recordMarks) := by
  induction ms generalizing acc with
  | nil => simp [handleMutationsGo]
  | cons m rest ih =>
      rw [handleMutationsGo, handleMutationsStep_spec, ih]
      simp

/-- Decomposition of the callback output: all per-record events in
record order, followed by one DOMSubtreeModified per pushed mark, in
push order. -/
theorem handleMutations_decomposition {Node : Type} [DecidableEq Node]
    (env : DomEnv Node) (ms : List (MutationRecord Node)) :
    handleMutations env ms
      = ms.flatMap (recordEvents env)
        ++ (ms.flatMap recordMarks).map (fun touchedNode =>
              dispatchMutationEvent "DOMSubtreeModified" touchedNode none none) := by
  rw [handleMutations, handleMutationsGo_spec]
  simp

/-- C1 (amended): for a childList record, the engine dispatches, per
removed node n in record order: a DOMNodeRemoved at n; a fake-target
DOMNodeRemoved at the old parent with n as apparent target; then,
unconditionally (connectivity is never consulted), one non-bubbling
DOMNodeRemovedFromDocument per node of the removed subtree in
walk order, followed by a single fake-target DOMNodeRemovedFromDocument
on the parent with n as apparent target (one per removed node, not one
per subtree node); the parent is marked once per removed and per added
node for a DOMSubtreeModified that is dispatched only after all records
of the batch, in mark order. -/
theorem c1_removal_sequence_amended {Node : Type} [DecidableEq Node]
    (env : DomEnv Node) (target : Node) (added removed : List Node)
    (name : String) (oldValue : Option String) :
    handleMutations env
        [{ type := .childList, target := target, addedNodes := added,
           removedNodes := removed, attributeName := name, oldValue := oldValue }]
      = removed.flatMap (fun n =>
          [dispatchMutationEvent "DOMNodeRemoved" n none none,
           dispatchMutationEvent "DOMNodeRemoved" target none (some n)]
          ++ (env.walkOrder n).map (fun node =>
               dispatchMutationEvent "DOMNodeRemovedFromDocument" node
                 (some noBubblesOverride) none)
          ++ [dispatchMutationEvent "DOMNodeRemovedFromDocument" target
               (some noBubblesOverride) (some n)])
        ++ added.flatMap (fun n =>
            dispatchMutationEvent "DOMNodeInserted" n none none
            :: (env.walkOrder n).map (fun node =>
                 dispatchMutationEvent "DOMNodeInsertedIntoDocument" node
                   (some noBubblesOverride) none))
        ++ (removed ++ added).map (fun _ =>
              dispatchMutationEvent "DOMSubtreeModified" target none none) := by
  rw [handleMutations_decomposition]
  simp [recordEvents, recordMarks]

/-- Example DOM for the C1 counterexample: node 1 has the two-node
removed subtree [1, 2], and every node reports itself still connected
to a document. -/
def envC1 : DomEnv Nat :=
  { getAttribute := fun _ _ => none
    textContent := fun _ => ""
    walkOrder := fun n => if n = 1 then [1, 2] else [n]
    isConnected := fun _ => true }

/-- Batch for the C1 counterexample: one childList record on parent 0
removing node 1. -/
def batchC1 : List (MutationRecord Nat) :=
  [{ type := .childList, target := 0, addedNodes := [], removedNodes := [1],
     attributeName := "", oldValue := none }]

/-- C1 counterexample: removed node 1 (subtree [1, 2]) stays connected,
yet the code dispatches three DOMNodeRemovedFromDocument events — the
claim predicts none for a node that does not become disconnected, and,
reading past its connectivity condition, predicts each of the two
subtree dispatches to be duplicated as a fake-target dispatch on the
parent (two fake-target events); the code emits exactly one fake-target
DOMNodeRemovedFromDocument, placed after the whole subtree walk. -/
theorem c1_claim_counterexample :
    handleMutations envC1 batchC1
      = [dispatchMutationEvent "DOMNodeRemoved" 1 none none,
         dispatchMutationEvent "DOMNodeRemoved" 0 none (some 1),
         dispatchMutationEvent "DOMNodeRemovedFromDocument" 1 (some noBubblesOverride) none,
         dispatchMutationEvent "DOMNodeRemovedFromDocument" 2 (some noBubblesOverride) none,
         dispatchMutationEvent "DOMNodeRemovedFromDocument" 0 (some noBubblesOverride) (some 1),
         dispatchMutationEvent "DOMSubtreeModified" 0 none none]
    ∧ envC1.isConnected 1 = true
    ∧ (handleMutations envC1 batchC1).countP (fun e =>
        decide (e.eventType = "DOMNodeRemovedFromDocument" ++ polyfillEventNameExtension)) = 3
    ∧ (handleMutations envC1 batchC1).countP (fun e =>
        decide (e.eventType = "DOMNodeRemovedFromDocument" ++ polyfillEventNameExtension)
          && e.fakeTarget.isSome) = 1 := by
  refine ⟨by decide, rfl, by decide, by decide⟩

/-- Boolean test for a DOMSubtreeModified synthetic event dispatched at
the given node. -/
def subtreeModifiedPred {Node : Type} [DecidableEq Node] (t : Node)
    (e : SynthEvent Node) : Bool :=
  decide (e.eventType = "DOMSubtreeModified" ++ polyfillEventNameExtension)
    && decide (e.dispatchTarget = t)

/-- Number of qualifying change occurrences one record carries for a
node: one for an attributes record on the node whose attribute
transitioned to or from absent, one for a characterData record on the
node, and one per removed and per added child of a childList record on
the node. -/
def recordContribution {Node : Type} [DecidableEq Node] (env : DomEnv Node)
    (t : Node) (m : MutationRecord Node) : Nat :=
  match m.type with
  | .attributes =>
      if m.target = t ∧ (m.oldValue = none
          ∨ env.getAttribute m.target m.attributeName = none) then 1 else 0
  | .characterData => if m.target = t then 1 else 0
  | .childList =>
      if m.target = t then m.removedNodes.length + m.addedNodes.length else 0

/-- Number of qualifying change occurrences for a node over a batch. -/
def qualifyingOccurrences {Node : Type} [DecidableEq Node] (env : DomEnv Node)
    (t : Node) : List (MutationRecord Node) → Nat
  | [] => 0
  | m :: rest => recordContribution env t m + qualifyingOccurrences env t rest

theorem subtreeModifiedPred_dispatch_ne {Node : Type} [DecidableEq Node] (t : Node)
    (type : String) (x : Node) (o : Option (DispatchOptions Node)) (f : Option Node)
    (h : ¬ type ++ polyfillEventNameExtension
          = "DOMSubtreeModified" ++ polyfillEventNameExtension) :
    subtreeModifiedPred t (dispatchMutationEvent type x o f) = false := by
  simp [subtreeModifiedPred, dispatchMutationEvent, h]

theorem subtreeModifiedPred_dispatch_stm {Node : Type} [DecidableEq Node] (t : Node)
    (u : Node) (o : Option (DispatchOptions Node)) (f : Option Node) :
    subtreeModifiedPred t (dispatchMutationEvent "DOMSubtreeModified" u o f)
      = decide (u = t) := by
  simp [subtreeModifiedPred, dispatchMutationEvent]

theorem countP_flatMap_eq_zero {α β : Type} (p : β → Bool) (f : α → List β)
    (l : List α) (h : ∀ a, (f a).countP p = 0) :
    (l.flatMap f).countP p = 0 := by
  induction l with
  | nil => simp
  | cons a rest ih => simp [List.countP_append, h, ih]

theorem countP_replicate_decide {Node : Type} [DecidableEq Node] (k : Nat)
    (a t : Node) :
    (List.replicate k a).countP (fun u => decide (u = t))
      = if a = t then k else 0 := by
  induction k with
  | zero => simp
  | succ j ih =>
      rw [List.replicate_succ, List.countP_cons]
      by_cases h : a = t
      · subst h
        simp [ih]
      · simp [ih, h]

/-- Per record, the DOMSubtreeModified events counted among its inline
events plus its marks counted as nodes give exactly its qualifying
contribution for the node. -/
theorem recordContribution_split {Node : Type} [DecidableEq Node] (env : DomEnv Node)
    (t : Node) (m : MutationRecord Node) :
    (recordEvents env m).countP (subtreeModifiedPred t)
      + (recordMarks m).countP (fun u => decide (u = t))
      = recordContribution env t m := by
  have hNR : ∀ (x : Node) (o : Option (DispatchOptions Node)) (f : Option Node),
      subtreeModifiedPred t (dispatchMutationEvent "DOMNodeRemoved" x o f) = false :=
    fun x o f => subtreeModifiedPred_dispatch_ne t _ x o f (by decide)
  have hRFD : ∀ (x : Node) (o : Option (DispatchOptions Node)) (f : Option Node),
      subtreeModifiedPred t
        (dispatchMutationEvent "DOMNodeRemovedFromDocument" x o f) = false :=
    fun x o f => subtreeModifiedPred_dispatch_ne t _ x o f (by decide)
  have hNI : ∀ (x : Node) (o : Option (DispatchOptions Node)) (f : Option Node),
      subtreeModifiedPred t (dispatchMutationEvent "DOMNodeInserted" x o f) = false :=
    fun x o f => subtreeModifiedPred_dispatch_ne t _ x o f (by decide)
  have hIID : ∀ (x : Node) (o : Option (DispatchOptions Node)) (f : Option Node),
      subtreeModifiedPred t
        (dispatchMutationEvent "DOMNodeInsertedIntoDocument" x o f) = false :=
    fun x o f => subtreeModifiedPred_dispatch_ne t _ x o f (by decide)
  have hCD : ∀ (x : Node) (o : Option (DispatchOptions Node)) (f : Option Node),
      subtreeModifiedPred t
        (dispatchMutationEvent "DOMCharacterDataModified" x o f) = false :=
    fun x o f => subtreeModifiedPred_dispatch_ne t _ x o f (by decide)
  rcases m with ⟨ty, target, added, removed, name, oldValue⟩
  cases ty
  · by_cases ht : target = t
    · subst ht
      by_cases h : oldValue = none ∨ env.getAttribute target name = none
      · simp [recordEvents, recordMarks, recordContribution, h,
          List.countP_cons, subtreeModifiedPred_dispatch_stm]
      · simp [recordEvents, recordMarks, recordContribution, h]
    · by_cases h : oldValue = none ∨ env.getAttribute target name = none
      · simp [recordEvents, recordMarks, recordContribution, h, ht,
          List.countP_cons, subtreeModifiedPred_dispatch_stm]
      · simp [recordEvents, recordMarks, recordContribution, h, ht]
  · by_cases ht : target = t
    · simp [recordEvents, recordMarks, recordContribution, ht,
        List.countP_cons, hCD]
    · simp [recordEvents, recordMarks, recordContribution, ht,
        List.countP_cons, hCD]
  · have hev : (recordEvents env
        { type := MutationType.childList, target := target, addedNodes := added,
          removedNodes := removed, attributeName := name,
          oldValue := oldValue }).countP (subtreeModifiedPred t) = 0 := by
      rw [recordEvents]
      rw [List.countP_append]
      rw [countP_flatMap_eq_zero _ _ _ (fun n => by
        simp [List.countP_append, List.countP_cons, List.countP_map,
          Function.comp_def, hNR, hRFD])]
      rw [countP_flatMap_eq_zero _ _ _ (fun n => by
        simp [List.countP_cons, List.countP_map, Function.comp_def, hNI, hIID])]
    rw [hev]
    by_cases ht : target = t
    · simp [recordMarks, recordContribution, ht, List.countP_append,
        countP_replicate_decide]
    · simp [recordMarks, recordContribution, ht, List.countP_append,
        countP_replicate_decide]

/-- C2 (amended): the callback dispatches all per-record notifications
in record order and afterwards one DOMSubtreeModified per mark, in mark
order; the number of DOMSubtreeModified events dispatched at a node
equals the number of qualifying change occurrences for that node in the
batch (one per attribute add/remove record, one per characterData
record, and one per removed and per added child), not one per distinct
node — a node with several changed children receives several events,
and attribute-driven DOMSubtreeModified events are dispatched inline
while their record is classified rather than deferred. -/
theorem c2_subtree_modified_per_occurrence {Node : Type} [DecidableEq Node]
    (env : DomEnv Node) (ms : List (MutationRecord Node)) (t : Node) :
    handleMutations env ms
      = ms.flatMap (recordEvents env)
        ++ (ms.flatMap recordMarks).map (fun touchedNode =>
              dispatchMutationEvent "DOMSubtreeModified" touchedNode none none)
    ∧ (handleMutations env ms).countP (subtreeModifiedPred t)
        = qualifyingOccurrences env t ms := by
  refine ⟨handleMutations_decomposition env ms, ?_⟩
  rw [handleMutations_decomposition]
  have hmap : ∀ l : List Node,
      (l.map (fun touchedNode =>
          dispatchMutationEvent "DOMSubtreeModified" touchedNode none none)).countP
        (subtreeModifiedPred t)
        = l.countP (fun u => decide (u = t)) := by
    intro l
    induction l with
    | nil => simp
    | cons a as ihl =>
        simp [List.countP_cons, ihl, subtreeModifiedPred_dispatch_stm]
  induction ms with
  | nil => simp [qualifyingOccurrences]
  | cons m rest ih =>
      rw [List.flatMap_cons, List.flatMap_cons, List.map_append,
        List.countP_append, List.countP_append, List.countP_append,
        qualifyingOccurrences, hmap, hmap]
      rw [List.countP_append, hmap] at ih
      have hsplit := recordContribution_split env t m
      omega

/-- Example DOM for the C2 counterexample: trivial one-node subtrees. -/
def envC2 : DomEnv Nat :=
  { getAttribute := fun _ _ => none
    textContent := fun _ => ""
    walkOrder := fun n => [n]
    isConnected := fun _ => true }

/-- Batch for the C2 counterexample: one childList record on node 0
that removed child 1 and added child 2. -/
def batchC2 : List (MutationRecord Nat) :=
  [{ type := .childList, target := 0, addedNodes := [2], removedNodes := [1],
     attributeName := "", oldValue := none }]

/-- C2 counterexample: node 0 is the only node with qualifying changes
in the batch, so the claim predicts exactly one DOMSubtreeModified
dispatched at it; the code dispatches two (one per removed child plus
one per added child). -/
theorem c2_claim_counterexample :
    (handleMutations envC2 batchC2).countP (subtreeModifiedPred (0 : Nat)) = 2
    ∧ (handleMutations envC2 batchC2).countP (subtreeModifiedPred (0 : Nat)) ≠ 1 := by
  refine ⟨by decide, by decide⟩

/-- C3: an attributes change record dispatches exactly one
DOMSubtreeModified on its target when the attribute transitioned to or
from absent (old value null, or the attribute now absent on the
target), and nothing at all when an existing attribute value was merely
overwritten (source lines 77-82; the record is also never marked in the
subtreeModified array, so no deferred event follows either). -/
theorem c3_attribute_filtering {Node : Type} [DecidableEq Node] (env : DomEnv Node)
    (target : Node) (added removed : List Node) (name : String)
    (oldValue : Option String) :
    handleMutations env
        [{ type := .attributes, target := target, addedNodes := added,
           removedNodes := removed, attributeName := name, oldValue := oldValue }]
      = if oldValue = none ∨ env.getAttribute target name = none then
          [dispatchMutationEvent "DOMSubtreeModified" target
            (some (attributeNameOverride name)) none]
        else [] := by
  by_cases h : oldValue = none ∨ env.getAttribute target name = none
  · simp [handleMutations, handleMutationsGo, handleMutationsStep, h]
  · simp [handleMutations, handleMutationsGo, handleMutationsStep, h]

/-- State of the observer lifecycle manager (source lines 68-69): the
listeningNodes Set (membership only, so a Finset) and the
documentsToObservers Map from observation root to the registration
refcount, as an association list in insertion order.  Counts are
integers, matching JS number arithmetic on the count field; the
underlying MutationObserver handle carries no further state relevant
here, so a registration is represented by its count and destruction by
removal of the entry. -/
structure PolyfillState (Node Root : Type) where
  listeningNodes : Finset Node
  documentsToObservers : List (Root × Int)
deriving DecidableEq

/-- The empty initial state. -/
def initialPolyfillState (Node Root : Type) : PolyfillState Node Root :=
  ⟨∅, []⟩

/-- Map.get on the association list: first entry with the key wins
(keys are unique in every reachable state). -/
def mapLookup {Root : Type} [DecidableEq Root] :
    List (Root × Int) → Root → Option Int
  | [], _ => none
  | p :: rest, r => if p.1 = r then some p.2 else mapLookup rest r

/-- In-place update of the count stored under an existing key
(modelling count++ and --count on the registration object); a missing
key leaves the list unchanged. -/
def mapSetCount {Root : Type} [DecidableEq Root] (m : List (Root × Int)) (r : Root)
    (c : Int) : List (Root × Int) :=
  m.map (fun p => if p.1 = r then (r, c) else p)

/-- Map.delete. -/
def mapDelete {Root : Type} [DecidableEq Root] (m : List (Root × Int)) (r : Root) :
    List (Root × Int) :=
  m.filter (fun p => decide (p.1 ≠ r))

/-- Model of enableMutationEventPolyfill (source lines 136-148).  The
rootOf parameter stands for getRootElement evaluated against the DOM at
call time.  If the target is already listening, nothing happens;
otherwise the target is added, and the registration of its root is
either increfed or freshly created with count 1 (creating the
underlying observer). -/
def enableMutationEventPolyfill {Node Root : Type} [DecidableEq Node]
    [DecidableEq Root] (rootOf : Node → Root) (s : PolyfillState Node Root)
    (target : Node) : PolyfillState Node Root :=
  if target ∈ s.listeningNodes then s
  else
    match mapLookup s.documentsToObservers (rootOf target) with
    | some c =>
        { listeningNodes := insert target s.listeningNodes
          documentsToObservers :=
            mapSetCount s.documentsToObservers (rootOf target) (c + 1) }
    | none =>
        { listeningNodes := insert target s.listeningNodes
          documentsToObservers :=
            s.documentsToObservers ++ [(rootOf target, 1)] }

/-- Model of disableMutationEventPolyfill (source lines 150-162).  A
target that is not listening is ignored; otherwise it is removed and,
when its root has a registration, the count is decremented, the
registration being deleted (and its observer disconnected) exactly when
the decremented count is 0.  When the root has no registration the
function returns silently with only the listening set changed. -/
def disableMutationEventPolyfill {Node Root : Type} [DecidableEq Node]
    [DecidableEq Root] (rootOf : Node → Root) (s : PolyfillState Node Root)
    (target : Node) : PolyfillState Node Root :=
  if target ∈ s.listeningNodes then
    match mapLookup s.documentsToObservers (rootOf target) with
    | none => { s with listeningNodes := s.listeningNodes.erase target }
    | some c =>
        if c - 1 = 0 then
          { listeningNodes := s.listeningNodes.erase target
            documentsToObservers :=
              mapDelete s.documentsToObservers (rootOf target) }
        else
          { listeningNodes := s.listeningNodes.erase target
            documentsToObservers :=
              mapSetCount s.documentsToObservers (rootOf target) (c - 1) }
  else s

/-- C5: enable is idempotent per node and disable is idempotent per
absent node — enabling an already-listening node is a no-op (so the
refcount of its root is incremented at most once per distinct node, not
per call), disabling a node that is not listening is a no-op, and after
one enable, a second disable of the same node changes nothing. -/
theorem c5_enable_disable_idempotent {Node Root : Type} [DecidableEq Node]
    [DecidableEq Root] (rootOf : Node → Root) (s : PolyfillState Node Root)
    (t : Node) :
    (t ∈ s.listeningNodes → enableMutationEventPolyfill rootOf s t = s)
    ∧ (t ∉ s.listeningNodes → disableMutationEventPolyfill rootOf s t = s)
    ∧ disableMutationEventPolyfill rootOf
        (disableMutationEventPolyfill rootOf
          (enableMutationEventPolyfill rootOf s t) t) t
      = disableMutationEventPolyfill rootOf
          (enableMutationEventPolyfill rootOf s t) t := by
  refine ⟨?_, ?_, ?_⟩
  · intro h
    simp [enableMutationEventPolyfill, h]
  · intro h
    simp [disableMutationEventPolyfill, h]
  · have hmem : t ∈ (enableMutationEventPolyfill rootOf s t).listeningNodes := by
      rw [enableMutationEventPolyfill]
      by_cases h : t ∈ s.listeningNodes
      · simp [h]
      · simp only [h, if_false]
        cases hm : mapLookup s.documentsToObservers (rootOf t) <;> simp [hm]
    have hout : t ∉ (disableMutationEventPolyfill rootOf
        (enableMutationEventPolyfill rootOf s t) t).listeningNodes := by
      rw [disableMutationEventPolyfill]
      simp only [hmem, if_true]
      cases hm : mapLookup
          ((enableMutationEventPolyfill rootOf s t).documentsToObservers) (rootOf t) with
      | none => simp [hm]
      | some c =>
          by_cases hc : c - 1 = 0 <;> simp [hm, hc]
    conv_lhs => rw [disableMutationEventPolyfill]
    simp [hout]

/-- Concrete state for the C5 witness: node 3 listening, root 0
registered with count 1. -/
def stateC5 : PolyfillState Nat Nat := ⟨{3}, [(0, 1)]⟩

/-- Witness for C5 at concrete inputs: enabling listening node 3 and
disabling absent node 4 are no-ops, and a second disable of node 3
after an enable changes nothing. -/
theorem c5_witness :
    enableMutationEventPolyfill (fun _ => 0) stateC5 3 = stateC5
    ∧ disableMutationEventPolyfill (fun _ => 0) stateC5 4 = stateC5
    ∧ disableMutationEventPolyfill (fun _ => 0)
        (disableMutationEventPolyfill (fun _ => 0)
          (enableMutationEventPolyfill (fun _ => 0) stateC5 3) 3) 3
      = disableMutationEventPolyfill (fun _ => 0)
          (enableMutationEventPolyfill (fun _ => 0) stateC5 3) 3 :=
  ⟨(c5_enable_disable_idempotent (fun _ => 0) stateC5 3).1 (by decide),
   (c5_enable_disable_idempotent (fun _ => 0) stateC5 4).2.1 (by decide),
   (c5_enable_disable_idempotent (fun _ => 0) stateC5 3).2.2⟩

theorem mapLookup_mapSetCount {Root : Type} [DecidableEq Root]
    (m : List (Root × Int)) (r : Root) (c : Int) (q : Root) :
    mapLookup (mapSetCount m r c) q
      = if q = r then (mapLookup m r).map (fun _ => c) else mapLookup m q := by
  induction m with
  | nil =>
      simp only [mapSetCount, List.map_nil, mapLookup]
      split <;> rfl
  | cons p rest ih =>
      simp only [mapSetCount, List.map_cons] at ih ⊢
      by_cases hp : p.1 = r <;> by_cases hq : q = r <;>
        by_cases hpq : p.1 = q <;>
        simp_all [mapLookup]

theorem mapLookup_mapDelete {Root : Type} [DecidableEq Root]
    (m : List (Root × Int)) (r : Root) (q : Root) :
    mapLookup (mapDelete m r) q = if q = r then none else mapLookup m q := by
  induction m with
  | nil =>
      simp only [mapDelete, List.filter_nil, mapLookup]
      split <;> rfl
  | cons p rest ih =>
      simp only [mapDelete, List.filter_cons] at ih ⊢
      by_cases hp : p.1 = r <;> by_cases hq : q = r <;>
        by_cases hpq : p.1 = q <;>
        simp_all [mapLookup]

theorem mapLookup_append {Root : Type} [DecidableEq Root]
    (m m2 : List (Root × Int)) (q : Root) :
    mapLookup (m ++ m2) q
      = match mapLookup m q with
        | some v => some v
        | none => mapLookup m2 q := by
  induction m with
  | nil => simp [mapLookup]
  | cons p rest ih =>
      by_cases hp : p.1 = q
      · simp [mapLookup, hp]
      · simp [mapLookup, hp, ih]

/-- One enable or disable call together with the observation root the
call resolves for its target (getRootElement is evaluated against the
DOM as it stands at call time, so the root accompanies the call rather
than being a fixed function of the node). -/
def applyOpAt {Node Root : Type} [DecidableEq Node] [DecidableEq Root]
    (s : PolyfillState Node Root) (op : Bool × Node × Root) :
    PolyfillState Node Root :=
  if op.1 then enableMutationEventPolyfill (fun _ => op.2.2) s op.2.1
  else disableMutationEventPolyfill (fun _ => op.2.2) s op.2.1

/-- Run a sequence of enable/disable calls with per-call root
resolution. -/
def runOpsAt {Node Root : Type} [DecidableEq Node] [DecidableEq Root] :
    PolyfillState Node Root → List (Bool × Node × Root) → PolyfillState Node Root
  | s, [] => s
  | s, op :: rest => runOpsAt (applyOpAt s op) rest

/-- Every registration in the map has count at least 1. -/
def allCountsPositive {Node Root : Type} [DecidableEq Node] [DecidableEq Root]
    (s : PolyfillState Node Root) : Prop :=
  ∀ (r : Root) (c : Int), mapLookup s.documentsToObservers r = some c → 1 ≤ c

theorem allCountsPositive_enable {Node Root : Type} [DecidableEq Node]
    [DecidableEq Root] (rootOf : Node → Root) (s : PolyfillState Node Root)
    (t : Node) (h : allCountsPositive s) :
    allCountsPositive (enableMutationEventPolyfill rootOf s t) := by
  rw [enableMutationEventPolyfill]
  by_cases hmem : t ∈ s.listeningNodes
  · simpa [hmem] using h
  · simp only [hmem, if_false]
    cases hm : mapLookup s.documentsToObservers (rootOf t) with
    | some c =>
        intro r v hv
        simp only [mapLookup_mapSetCount] at hv
        by_cases hr : r = rootOf t
        · rw [if_pos hr, hm] at hv
          simp only [Option.map_some', Option.some.injEq] at hv
          have := h (rootOf t) c hm
          omega
        · rw [if_neg hr] at hv
          exact h r v hv
    | none =>
        intro r v hv
        simp only [mapLookup_append] at hv
        cases hq : mapLookup s.documentsToObservers r with
        | some w =>
            rw [hq] at hv
            simp only at hv
            cases hv
            exact h r v hq
        | none =>
            rw [hq] at hv
            simp only [mapLookup] at hv
            by_cases hr : rootOf t = r
            · rw [if_pos hr] at hv
              cases hv
              omega
            · rw [if_neg hr] at hv
              cases hv

theorem allCountsPositive_disable {Node Root : Type} [DecidableEq Node]
    [DecidableEq Root] (rootOf : Node → Root) (s : PolyfillState Node Root)
    (t : Node) (h : allCountsPositive s) :
    allCountsPositive (disableMutationEventPolyfill rootOf s t) := by
  rw [disableMutationEventPolyfill]
  by_cases hmem : t ∈ s.listeningNodes
  · simp only [hmem, if_true]
    cases hm : mapLookup s.documentsToObservers (rootOf t) with
    | none => simpa using h
    | some c =>
        have hc := h (rootOf t) c hm
        by_cases hzero : c - 1 = 0
        · simp only [hzero, if_true]
          intro r v hv
          simp only [mapLookup_mapDelete] at hv
          by_cases hr : r = rootOf t
          · rw [if_pos hr] at hv
            cases hv
          · rw [if_neg hr] at hv
            exact h r v hv
        · simp only [hzero, if_false]
          intro r v hv
          simp only [mapLookup_mapSetCount] at hv
          by_cases hr : r = rootOf t
          · rw [if_pos hr, hm] at hv
            simp only [Option.map_some', Option.some.injEq] at hv
            omega
          · rw [if_neg hr] at hv
            exact h r v hv
  · simpa [hmem] using h

theorem allCountsPositive_runOpsAt {Node Root : Type} [DecidableEq Node]
    [DecidableEq Root] (ops : List (Bool × Node × Root))
    (s : PolyfillState Node Root) (h : allCountsPositive s) :
    allCountsPositive (runOpsAt s ops) := by
  induction ops generalizing s with
  | nil => exact h
  | cons op rest ih =>
      rw [runOpsAt]
      apply ih
      rcases op with ⟨e, n, r⟩
      cases e
      · simpa [applyOpAt] using allCountsPositive_disable (fun _ => r) s n h
      · simpa [applyOpAt] using allCountsPositive_enable (fun _ => r) s n h

/-- C10: in every state reachable from the empty state by enable and
disable calls (with arbitrary, even changing, root resolution per
call), every registration stored in the root-to-observer map has
count at least 1 — enable creates entries at 1 or increments, disable
deletes an entry exactly when its count reaches 0, and no count is ever
decremented below zero; moreover, disabling a listening node whose
currently resolved root has no map entry removes the node from the
listening set and silently leaves the registration map unchanged. -/
theorem c10_registration_count_invariant {Node Root : Type} [DecidableEq Node]
    [DecidableEq Root] :
    (∀ (ops : List (Bool × Node × Root)) (r : Root) (c : Int),
       mapLookup (runOpsAt (initialPolyfillState Node Root) ops).documentsToObservers r
         = some c → 1 ≤ c)
    ∧ (∀ (rootOf : Node → Root) (s : PolyfillState Node Root) (t : Node),
         t ∈ s.listeningNodes →
         mapLookup s.documentsToObservers (rootOf t) = none →
         disableMutationEventPolyfill rootOf s t
           = { s with listeningNodes := s.listeningNodes.erase t }) := by
  constructor
  · intro ops r c
    refine allCountsPositive_runOpsAt ops _ ?_ r c
    intro q v hv
    simp [initialPolyfillState, mapLookup] at hv
  · intro rootOf s t hmem hnone
    rw [disableMutationEventPolyfill]
    simp only [hmem, if_true, hnone]

/-- Concrete state for the second C10 witness conjunct: node 0
listening, empty registration map. -/
def stateC10 : PolyfillState Nat Nat := ⟨{0}, []⟩

/-- Witness for C10: the invariant applied to the one-step run
enabling node 0 with root 0 (whose registration has count 1), and the
silent-return behavior of disable on listening node 0 whose resolved
root 5 has no registration. -/
theorem c10_witness :
    (1 : Int) ≤ 1
    ∧ disableMutationEventPolyfill (fun _ => (5 : Nat)) stateC10 0
        = { stateC10 with listeningNodes := stateC10.listeningNodes.erase 0 } :=
  ⟨(@c10_registration_count_invariant Nat Nat _ _).1
      [(true, 0, 0)] 0 1 (by decide),
   (@c10_registration_count_invariant Nat Nat _ _).2
      (fun _ => 5) stateC10 0 (by decide) (by decide)⟩

/-- Number of listening nodes resolving to a given root. -/
def countRoot {Node Root : Type} [DecidableEq Node] [DecidableEq Root]
    (rootOf : Node → Root) (r : Root) (s : PolyfillState Node Root) : Nat :=
  (s.listeningNodes.filter (fun n => rootOf n = r)).card

theorem card_filter_insert_not_mem {Node : Type} [DecidableEq Node]
    (L : Finset Node) (t : Node) (p : Node → Prop) [DecidablePred p]
    (h : t ∉ L) :
    ((insert t L).filter p).card
      = (L.filter p).card + if p t then 1 else 0 := by
  by_cases hp : p t
  · rw [Finset.filter_insert, if_pos hp, if_pos hp,
      Finset.card_insert_of_not_mem (fun hc => h (Finset.mem_of_mem_filter _ hc))]
  · rw [Finset.filter_insert, if_neg hp, if_neg hp]
    omega

theorem card_filter_erase_mem {Node : Type} [DecidableEq Node]
    (L : Finset Node) (t : Node) (p : Node → Prop) [DecidablePred p]
    (h : t ∈ L) :
    (L.filter p).card
      = ((L.erase t).filter p).card + if p t then 1 else 0 := by
  by_cases hp : p t
  · have ht : t ∈ L.filter p := Finset.mem_filter.2 ⟨h, hp⟩
    have hpos : 1 ≤ (L.filter p).card := Finset.card_pos.2 ⟨t, ht⟩
    rw [if_pos hp, Finset.filter_erase, Finset.card_erase_of_mem ht]
    omega
  · rw [if_neg hp, Finset.filter_erase,
      Finset.erase_eq_of_not_mem (fun hc => hp (Finset.mem_filter.1 hc).2)]
    omega

theorem enable_listeningNodes_not_mem {Node Root : Type} [DecidableEq Node]
    [DecidableEq Root] (rootOf : Node → Root) (s : PolyfillState Node Root)
    (t : Node) (h : t ∉ s.listeningNodes) :
    (enableMutationEventPolyfill rootOf s t).listeningNodes
      = insert t s.listeningNodes := by
  rw [enableMutationEventPolyfill]
  simp only [h, if_false]
  cases hm : mapLookup s.documentsToObservers (rootOf t) <;> rfl

theorem disable_listeningNodes_mem {Node Root : Type} [DecidableEq Node]
    [DecidableEq Root] (rootOf : Node → Root) (s : PolyfillState Node Root)
    (t : Node) (h : t ∈ s.listeningNodes) :
    (disableMutationEventPolyfill rootOf s t).listeningNodes
      = s.listeningNodes.erase t := by
  rw [disableMutationEventPolyfill]
  simp only [h, if_true]
  cases hm : mapLookup s.documentsToObservers (rootOf t) with
  | none => rfl
  | some c => by_cases hc : c - 1 = 0 <;> simp [hc]

/-- The refcount bookkeeping invariant under a fixed root resolution:
the map stores exactly the number of listening nodes under each root,
and only roots with at least one listening node have an entry. -/
def countInvariant {Node Root : Type} [DecidableEq Node] [DecidableEq Root]
    (rootOf : Node → Root) (s : PolyfillState Node Root) : Prop :=
  ∀ r : Root,
    mapLookup s.documentsToObservers r
      = if countRoot rootOf r s = 0 then none
        else some ((countRoot rootOf r s : Int))

theorem countInvariant_enable {Node Root : Type} [DecidableEq Node]
    [DecidableEq Root] (rootOf : Node → Root) (s : PolyfillState Node Root)
    (t : Node) (h : countInvariant rootOf s) :
    countInvariant rootOf (enableMutationEventPolyfill rootOf s t) := by
  by_cases hmem : t ∈ s.listeningNodes
  · rw [enableMutationEventPolyfill]
    simpa [hmem] using h
  · rw [enableMutationEventPolyfill]
    simp only [hmem, if_false]
    cases hm : mapLookup s.documentsToObservers (rootOf t) with
    | some c =>
        have h0 := h (rootOf t)
        rw [hm] at h0
        have hne : countRoot rootOf (rootOf t) s ≠ 0 := by
          intro hz
          rw [if_pos hz] at h0
          cases h0
        rw [if_neg hne] at h0
        have hcast : (countRoot rootOf (rootOf t) s : Int) = c := by
          simpa using h0.symm
        intro r
        have hcr : countRoot rootOf r
            ({ listeningNodes := insert t s.listeningNodes,
               documentsToObservers :=
                 mapSetCount s.documentsToObservers (rootOf t) (c + 1) } :
              PolyfillState Node Root)
            = countRoot rootOf r s + if rootOf t = r then 1 else 0 := by
          simp only [countRoot]
          exact card_filter_insert_not_mem s.listeningNodes t _ hmem
        simp only [mapLookup_mapSetCount, hcr]
        by_cases hr : r = rootOf t
        · subst hr
          rw [if_pos rfl, hm, if_pos rfl, if_neg (by omega)]
          simp only [Option.map_some', Option.some.injEq]
          push_cast
          omega
        · have hne2 : ¬ rootOf t = r := fun hc => hr hc.symm
          rw [if_neg hr, h r, if_neg hne2]
          simp
    | none =>
        have h0 := h (rootOf t)
        rw [hm] at h0
        have hz : countRoot rootOf (rootOf t) s = 0 := by
          by_cases hz : countRoot rootOf (rootOf t) s = 0
          · exact hz
          · rw [if_neg hz] at h0
            cases h0
        intro r
        have hcr : countRoot rootOf r
            ({ listeningNodes := insert t s.listeningNodes,
               documentsToObservers :=
                 s.documentsToObservers ++ [(rootOf t, 1)] } :
              PolyfillState Node Root)
            = countRoot rootOf r s + if rootOf t = r then 1 else 0 := by
          simp only [countRoot]
          exact card_filter_insert_not_mem s.listeningNodes t _ hmem
        simp only [mapLookup_append, hcr]
        by_cases hr : rootOf t = r
        · subst hr
          rw [hm, hz]
          simp [mapLookup]
        · have hind : (if rootOf t = r then (1 : Nat) else 0) = 0 := by
            rw [if_neg hr]
          rw [hind, h r]
          by_cases hzr : countRoot rootOf r s = 0
          · rw [if_pos hzr, if_pos (by omega)]
            simp [mapLookup, hr]
          · rw [if_neg hzr, if_neg (by omega)]
            simp

theorem countInvariant_disable {Node Root : Type} [DecidableEq Node]
    [DecidableEq Root] (rootOf : Node → Root) (s : PolyfillState Node Root)
    (t : Node) (h : countInvariant rootOf s) :
    countInvariant rootOf (disableMutationEventPolyfill rootOf s t) := by
  by_cases hmem : t ∈ s.listeningNodes
  · have hsplit : countRoot rootOf (rootOf t) s
        = ((s.listeningNodes.erase t).filter (fun n => rootOf n = rootOf t)).card
          + 1 := by
      have := card_filter_erase_mem s.listeningNodes t
        (fun n => rootOf n = rootOf t) hmem
      simpa [countRoot] using this
    rw [disableMutationEventPolyfill]
    simp only [hmem, if_true]
    cases hm : mapLookup s.documentsToObservers (rootOf t) with
    | none =>
        have h0 := h (rootOf t)
        rw [hm] at h0
        have hz : countRoot rootOf (rootOf t) s = 0 := by
          by_cases hz : countRoot rootOf (rootOf t) s = 0
          · exact hz
          · rw [if_neg hz] at h0
            cases h0
        omega
    | some c =>
        have h0 := h (rootOf t)
        rw [hm] at h0
        have hne : countRoot rootOf (rootOf t) s ≠ 0 := by
          intro hz
          rw [if_pos hz] at h0
          cases h0
        rw [if_neg hne] at h0
        have hcast : (countRoot rootOf (rootOf t) s : Int) = c := by
          simpa using h0.symm
        by_cases hzero : c - 1 = 0
        · simp only [hzero, if_true]
          intro r
          have hcr : countRoot rootOf r
              ({ listeningNodes := s.listeningNodes.erase t,
                 documentsToObservers :=
                   mapDelete s.documentsToObservers (rootOf t) } :
                PolyfillState Node Root)
              + (if rootOf t = r then 1 else 0) = countRoot rootOf r s := by
            simp only [countRoot]
            exact (card_filter_erase_mem s.listeningNodes t _ hmem).symm
          simp only [mapLookup_mapDelete]
          by_cases hr : r = rootOf t
          · subst hr
            rw [if_pos rfl] at hcr
            rw [if_pos rfl]
            split
            · rfl
            · rename_i hz2
              exfalso
              omega
          · have hne2 : ¬ rootOf t = r := fun hc => hr hc.symm
            rw [if_neg hne2, Nat.add_zero] at hcr
            rw [if_neg hr, h r, hcr]
        · simp only [hzero, if_false]
          intro r
          have hcr : countRoot rootOf r
              ({ listeningNodes := s.listeningNodes.erase t,
                 documentsToObservers :=
                   mapSetCount s.documentsToObservers (rootOf t) (c - 1) } :
                PolyfillState Node Root)
              + (if rootOf t = r then 1 else 0) = countRoot rootOf r s := by
            simp only [countRoot]
            exact (card_filter_erase_mem s.listeningNodes t _ hmem).symm
          simp only [mapLookup_mapSetCount]
          by_cases hr : r = rootOf t
          · subst hr
            rw [if_pos rfl] at hcr
            rw [if_pos rfl, hm]
            simp only [Option.map_some']
            split
            · rename_i hz2
              exfalso
              omega
            · rename_i hz2
              simp only [Option.some.injEq]
              omega
          · have hne2 : ¬ rootOf t = r := fun hc => hr hc.symm
            rw [if_neg hne2, Nat.add_zero] at hcr
            rw [if_neg hr, h r, hcr]
  · rw [disableMutationEventPolyfill]
    simpa [hmem] using h

/-- Run a sequence of enable/disable calls under a fixed root
resolution (the DOM does not change between calls). -/
def runOps {Node Root : Type} [DecidableEq Node] [DecidableEq Root]
    (rootOf : Node → Root) :
    PolyfillState Node Root → List (Bool × Node) → PolyfillState Node Root
  | s, [] => s
  | s, op :: rest =>
      runOps rootOf
        (if op.1 then enableMutationEventPolyfill rootOf s op.2
         else disableMutationEventPolyfill rootOf s op.2) rest

theorem countInvariant_runOps {Node Root : Type} [DecidableEq Node]
    [DecidableEq Root] (rootOf : Node → Root) (ops : List (Bool × Node))
    (s : PolyfillState Node Root) (h : countInvariant rootOf s) :
    countInvariant rootOf (runOps rootOf s ops) := by
  induction ops generalizing s with
  | nil => exact h
  | cons op rest ih =>
      rw [runOps]
      apply ih
      by_cases he : op.1 = true
      · rw [if_pos he]
        exact countInvariant_enable rootOf s op.2 h
      · rw [if_neg he]
        exact countInvariant_disable rootOf s op.2 h

/-- Effective enables and disables for a root along an op sequence: an
enable call counts only when its node is not yet listening (the first
enable per distinct currently-absent node), a disable only when its
node is listening, and only calls whose node resolves to the root are
counted.  The first component counts effective enables, the second
effective disables. -/
def effectiveCounts {Node Root : Type} [DecidableEq Node] [DecidableEq Root]
    (rootOf : Node → Root) (r : Root) :
    Finset Node → List (Bool × Node) → Nat × Nat
  | _, [] => (0, 0)
  | L, op :: rest =>
      if op.1 then
        if op.2 ∈ L then effectiveCounts rootOf r L rest
        else
          ((if rootOf op.2 = r then 1 else 0)
              + (effectiveCounts rootOf r (insert op.2 L) rest).1,
           (effectiveCounts rootOf r (insert op.2 L) rest).2)
      else
        if op.2 ∈ L then
          ((effectiveCounts rootOf r (L.erase op.2) rest).1,
           (if rootOf op.2 = r then 1 else 0)
              + (effectiveCounts rootOf r (L.erase op.2) rest).2)
        else effectiveCounts rootOf r L rest

theorem effectiveCounts_evolution {Node Root : Type} [DecidableEq Node]
    [DecidableEq Root] (rootOf : Node → Root) (r : Root)
    (ops : List (Bool × Node)) (s : PolyfillState Node Root) :
    countRoot rootOf r (runOps rootOf s ops)
        + (effectiveCounts rootOf r s.listeningNodes ops).2
      = countRoot rootOf r s
        + (effectiveCounts rootOf r s.listeningNodes ops).1 := by
  induction ops generalizing s with
  | nil => simp [runOps, effectiveCounts]
  | cons op rest ih =>
      rcases op with ⟨e, n⟩
      cases e
      · by_cases hmem : n ∈ s.listeningNodes
        · have hlist := disable_listeningNodes_mem rootOf s n hmem
          have hcount : countRoot rootOf r s
              = countRoot rootOf r (disableMutationEventPolyfill rootOf s n)
                + if rootOf n = r then 1 else 0 := by
            simp only [countRoot, hlist]
            exact card_filter_erase_mem s.listeningNodes n _ hmem
          have hstep := ih (disableMutationEventPolyfill rootOf s n)
          rw [hlist] at hstep
          rw [runOps, effectiveCounts]
          simp only [if_false, Bool.false_eq_true, hmem, if_true]
          omega
        · have hs : disableMutationEventPolyfill rootOf s n = s := by
            rw [disableMutationEventPolyfill, if_neg hmem]
          rw [runOps, effectiveCounts]
          simp only [if_false, Bool.false_eq_true, hmem]
          rw [hs]
          exact ih s
      · by_cases hmem : n ∈ s.listeningNodes
        · have hs : enableMutationEventPolyfill rootOf s n = s := by
            rw [enableMutationEventPolyfill, if_pos hmem]
          rw [runOps, effectiveCounts]
          simp only [if_true, hmem]
          rw [hs]
          exact ih s
        · have hlist := enable_listeningNodes_not_mem rootOf s n hmem
          have hcount : countRoot rootOf r (enableMutationEventPolyfill rootOf s n)
              = countRoot rootOf r s + if rootOf n = r then 1 else 0 := by
            simp only [countRoot, hlist]
            exact card_filter_insert_not_mem s.listeningNodes n _ hmem
          have hstep := ih (enableMutationEventPolyfill rootOf s n)
          rw [hlist] at hstep
          rw [runOps, effectiveCounts]
          simp only [if_true, hmem, if_false]
          omega

/-- C6: under a fixed root resolution, after any sequence of enable and
disable calls from the empty state, the registration map holds, for
each root, exactly the number of effective enables of nodes resolving
to that root minus the number of matching effective disables, and the
registration is absent (destroyed) exactly when that difference is
zero. -/
theorem c6_refcount_conservation {Node Root : Type} [DecidableEq Node]
    [DecidableEq Root] (rootOf : Node → Root) (ops : List (Bool × Node))
    (r : Root) :
    mapLookup (runOps rootOf (initialPolyfillState Node Root) ops).documentsToObservers r
      = if (effectiveCounts rootOf r ∅ ops).1 = (effectiveCounts rootOf r ∅ ops).2
        then none
        else some (((effectiveCounts rootOf r ∅ ops).1 : Int)
                    - ((effectiveCounts rootOf r ∅ ops).2 : Int)) := by
  have hinit : countInvariant rootOf (initialPolyfillState Node Root) := by
    intro q
    simp [initialPolyfillState, mapLookup, countRoot]
  have hinv := countInvariant_runOps rootOf ops _ hinit
  have hev := effectiveCounts_evolution rootOf r ops (initialPolyfillState Node Root)
  have h0 : countRoot rootOf r (initialPolyfillState Node Root) = 0 := by
    simp [countRoot, initialPolyfillState]
  have hL : (initialPolyfillState Node Root).listeningNodes = (∅ : Finset Node) := rfl
  rw [hL, h0] at hev
  have hfin := hinv r
  by_cases hed : (effectiveCounts rootOf r ∅ ops).1
      = (effectiveCounts rootOf r ∅ ops).2
  · rw [if_pos hed, hfin, if_pos (by omega)]
  · rw [if_neg hed, hfin, if_neg (by omega)]
    simp only [Option.some.injEq]
    omega

/-- DOM structure consulted by getRootElement (source lines 118-128):
tree parent links, shadow-root-to-host links, the two instanceof tests
and documentElement.  Nodes are numbered so that every parent and every
host carries a smaller number than its dependent (any finite acyclic
DOM can be numbered this way); recursions take explicit fuel and a
fuel of n + 1 is always sufficient when starting from node n. -/
structure DomTree where
  parentNode : Nat → Option Nat
  host : Nat → Option Nat
  isShadowRoot : Nat → Bool
  isDocument : Nat → Bool
  documentElement : Nat → Nat

/-- Well-formedness of the numbering: parents and hosts decrease, and
every shadow root has a host (as in the DOM). -/
def DomWF (d : DomTree) : Prop :=
  (∀ n p, d.parentNode n = some p → p < n)
  ∧ (∀ n q, d.host n = some q → q < n)
  ∧ (∀ n, d.isShadowRoot n = true → (d.host n).isSome)

/-- The DOM primitive getRootNode (no options): the root of the node's
own tree, reached by walking parent links to the top. -/
def getRootNode (d : DomTree) : Nat → Nat → Nat
  | 0, n => n
  | fuel + 1, n =>
      match d.parentNode n with
      | none => n
      | some p => getRootNode d fuel p

/-- The while loop of getRootElement (source lines 120-122): while the
current root is a shadow root, continue from the root of its host. -/
def getRootElementLoop (d : DomTree) (fp : Nat) : Nat → Nat → Nat
  | 0, rootNode => rootNode
  | fw + 1, rootNode =>
      if d.isShadowRoot rootNode then
        getRootElementLoop d fp fw
          (getRootNode d fp ((d.host rootNode).getD rootNode))
      else rootNode

/-- The root node left by the loop of getRootElement. -/
def resolvedRootNode (d : DomTree) (fw fp el : Nat) : Nat :=
  getRootElementLoop d fp fw (getRootNode d fp el)

/-- Model of getRootElement (source lines 118-128): resolve the root
through shadow boundaries; a document yields its documentElement and
anything else — the root of a disconnected tree — is returned as is. -/
def getRootElement (d : DomTree) (fw fp el : Nat) : Nat :=
  if d.isDocument (resolvedRootNode d fw fp el) then
    d.documentElement (resolvedRootNode d fw fp el)
  else resolvedRootNode d fw fp el

theorem getRootNode_le (d : DomTree) (hwf : DomWF d) :
    ∀ (fuel n : Nat), getRootNode d fuel n ≤ n := by
  intro fuel
  induction fuel with
  | zero => intro n; exact Nat.le_refl n
  | succ f ih =>
      intro n
      rw [getRootNode]
      cases hp : d.parentNode n with
      | none => exact Nat.le_refl n
      | some p => exact Nat.le_of_lt (Nat.lt_of_le_of_lt (ih p) (hwf.1 n p hp))

theorem getRootNode_parent_none (d : DomTree) (hwf : DomWF d) :
    ∀ (fuel n : Nat), n < fuel → d.parentNode (getRootNode d fuel n) = none := by
  intro fuel
  induction fuel with
  | zero => intro n hn; omega
  | succ f ih =>
      intro n hn
      rw [getRootNode]
      cases hp : d.parentNode n with
      | none => exact hp
      | some p =>
          exact ih p (by have := hwf.1 n p hp; omega)

theorem getRootElementLoop_spec (d : DomTree) (hwf : DomWF d) (fp : Nat) :
    ∀ (fw m : Nat), m < fw → m < fp → d.parentNode m = none →
    d.isShadowRoot (getRootElementLoop d fp fw m) = false
    ∧ d.parentNode (getRootElementLoop d fp fw m) = none := by
  intro fw
  induction fw with
  | zero => intro m hm; omega
  | succ f ih =>
      intro m hmf hmp hpar
      rw [getRootElementLoop]
      by_cases hs : d.isShadowRoot m = true
      · rw [if_pos hs]
        obtain ⟨q, hq⟩ := Option.isSome_iff_exists.1 (hwf.2.2 m hs)
        have hqlt : q < m := hwf.2.1 m q hq
        rw [hq]
        simp only [Option.getD_some]
        have hle := getRootNode_le d hwf fp q
        have hpn := getRootNode_parent_none d hwf fp q (by omega)
        exact ih (getRootNode d fp q) (by omega) (by omega) hpn
      · rw [if_neg hs]
        exact ⟨by simpa using hs, hpar⟩

/-- C8 (amended): root resolution walks up via getRootNode, continuing
from the host's root while the result is a shadow root; when the final
resolved root is a document the function returns its documentElement,
and otherwise it returns that resolved root — a parentless, non-shadow
node, the top of the disconnected tree — which coincides with the node
itself exactly in the degenerate case where the node already has no
parent (a disconnected non-root node resolves to its topmost ancestor,
not to itself); the degraded path returns normally rather than
failing. -/
theorem c8_root_resolution_amended (d : DomTree) (n : Nat) (hwf : DomWF d) :
    (d.isDocument (resolvedRootNode d (n + 1) (n + 1) n) = true →
      getRootElement d (n + 1) (n + 1) n
        = d.documentElement (resolvedRootNode d (n + 1) (n + 1) n))
    ∧ (d.isDocument (resolvedRootNode d (n + 1) (n + 1) n) = false →
      getRootElement d (n + 1) (n + 1) n = resolvedRootNode d (n + 1) (n + 1) n)
    ∧ d.isShadowRoot (resolvedRootNode d (n + 1) (n + 1) n) = false
    ∧ d.parentNode (resolvedRootNode d (n + 1) (n + 1) n) = none
    ∧ (d.parentNode n = none → d.isShadowRoot n = false →
      resolvedRootNode d (n + 1) (n + 1) n = n) := by
  have hle := getRootNode_le d hwf (n + 1) n
  have hpn := getRootNode_parent_none d hwf (n + 1) n (by omega)
  have hloop := getRootElementLoop_spec d hwf (n + 1) (n + 1)
    (getRootNode d (n + 1) n) (by omega) (by omega) hpn
  refine ⟨?_, ?_, hloop.1, hloop.2, ?_⟩
  · intro hdoc
    rw [getRootElement, if_pos hdoc]
  · intro hdoc
    rw [getRootElement, if_neg (by simp [hdoc])]
  · intro hp hs
    have hroot : getRootNode d (n + 1) n = n := by
      rw [getRootNode, hp]
    rw [resolvedRootNode, hroot, getRootElementLoop, if_neg (by simp [hs])]

/-- Concrete DOM for the C8 counterexample: node 1 is an element whose
parent is node 0; neither is in a document, there are no shadow
trees — node 1 is a disconnected non-root node. -/
def dEx : DomTree :=
  { parentNode := fun n => if n = 1 then some 0 else none
    host := fun _ => none
    isShadowRoot := fun _ => false
    isDocument := fun _ => false
    documentElement := fun n => n }

theorem domWF_dEx : DomWF dEx := by
  refine ⟨?_, ?_, ?_⟩
  · intro n p hp
    simp only [dEx] at hp
    split at hp
    · rename_i h1
      cases hp
      omega
    · cases hp
  · intro n q hq
    simp [dEx] at hq
  · intro n hs
    simp [dEx] at hs

/-- C8 counterexample: disconnected node 1 has parent 0, no document
and no shadow ancestry; the claim says root resolution returns the node
itself (1), but the code returns the final getRootNode result, the
topmost ancestor 0. -/
theorem c8_claim_counterexample :
    getRootElement dEx 2 2 1 = 0
    ∧ dEx.isDocument (resolvedRootNode dEx 2 2 1) = false
    ∧ getRootElement dEx 2 2 1 ≠ 1 := by
  refine ⟨rfl, rfl, by decide⟩

/-- Witness for C8 applied at the concrete DOM dEx and node 1. -/
theorem c8_witness :
    getRootElement dEx 2 2 1 = resolvedRootNode dEx 2 2 1
    ∧ dEx.isShadowRoot (resolvedRootNode dEx 2 2 1) = false
    ∧ dEx.parentNode (resolvedRootNode dEx 2 2 1) = none :=
  ⟨(c8_root_resolution_amended dEx 1 domWF_dEx).2.1 rfl,
   (c8_root_resolution_amended dEx 1 domWF_dEx).2.2.1,
   (c8_root_resolution_amended dEx 1 domWF_dEx).2.2.2.1⟩

/-- Page-global state consulted and mutated by the installation guard
(source lines 18-28): the one-time installed flag, whether the
MutationEvent global exists, the force-polyfill flag, and whether the
polyfill body (patches, shim) has run on this page. -/
structure WindowState where
  mutationEventsPolyfillInstalled : Bool
  hasMutationEvent : Bool
  mutationEventsUsePolyfillAlways : Bool
  polyfillActive : Bool
deriving DecidableEq, Repr

/-- Model of running the polyfill script (source lines 18-28 plus the
body): an already-set installed flag returns immediately; otherwise the
flag is set, and when the legacy feature is natively present and the
force flag is absent the script returns without installing; otherwise
the body runs, activating the polyfill (and defining the MutationEvent
shim of source lines 197-211, so the global exists afterwards). -/
def installPolyfill (w : WindowState) : WindowState :=
  if w.mutationEventsPolyfillInstalled then w
  else
    if w.hasMutationEvent && !w.mutationEventsUsePolyfillAlways then
      { w with mutationEventsPolyfillInstalled := true }
    else
      { w with mutationEventsPolyfillInstalled := true,
               polyfillActive := true,
               hasMutationEvent := true }

/-- C9: when the MutationEvent global exists and the force-polyfill
flag is not set, a first installation attempt only sets the installed
flag and refuses to activate the polyfill; when the feature is absent
or the force flag is set, a first attempt activates it; and running the
script a second or later time is always a silent no-op because of the
one-time installed flag. -/
theorem c9_install_guard (w : WindowState) :
    installPolyfill (installPolyfill w) = installPolyfill w
    ∧ (w.mutationEventsPolyfillInstalled = false → w.hasMutationEvent = true →
        w.mutationEventsUsePolyfillAlways = false →
        installPolyfill w = { w with mutationEventsPolyfillInstalled := true })
    ∧ (w.mutationEventsPolyfillInstalled = false →
        (w.hasMutationEvent = false ∨ w.mutationEventsUsePolyfillAlways = true) →
        (installPolyfill w).polyfillActive = true) := by
  rcases w with ⟨a, b, c, d⟩
  revert a b c d
  decide

/-- Witness for C9 at concrete window states: a fresh page with native
MutationEvent support and no force flag refuses installation, and a
fresh page without native support activates the polyfill. -/
theorem c9_witness :
    installPolyfill ⟨false, true, false, false⟩
      = { (⟨false, true, false, false⟩ : WindowState) with
          mutationEventsPolyfillInstalled := true }
    ∧ (installPolyfill ⟨false, false, false, false⟩).polyfillActive = true :=
  ⟨(c9_install_guard ⟨false, true, false, false⟩).2.1 rfl rfl rfl,
   (c9_install_guard ⟨false, false, false, false⟩).2.2 rfl (Or.inl rfl)⟩

/-- A listener entry in the platform registry of an EventTarget:
attachment node, event type string, the identity of the callback
function object, and the capture flag derived from the options (the
platform matches and dedupes entries by this triple of type, callback
identity and capture). -/
structure PlatformListener (Node : Type) where
  node : Node
  eventType : String
  callbackId : Nat
  capture : Bool
deriving DecidableEq, Repr

/-- Page state for the monkeypatched subscription entry points
(source lines 164-195).  JS function objects are modelled by numeric
identities: every evaluation of the arrow function inside
getAugmentedListener (source line 169) yields a fresh identity drawn
from nextFunctionId, and wrapperWraps records which caller listener
each wrapper forwards to. -/
structure PageListenerState (Node Root : Type) where
  nextFunctionId : Nat
  wrapperWraps : List (Nat × Nat)
  platformListeners : List (PlatformListener Node)
  polyfill : PolyfillState Node Root
deriving DecidableEq

/-- Page state before any subscription: wrapper identities are
allocated from 0 (scenario caller listeners use identities that are
never allocated, as distinct JS function objects are). -/
def initialPageListenerState (Node Root : Type) : PageListenerState Node Root :=
  ⟨0, [], [], initialPolyfillState Node Root⟩

/-- Which caller listener a wrapper forwards to. -/
def wrapperTargetOf : List (Nat × Nat) → Nat → Option Nat
  | [], _ => none
  | p :: rest, i => if p.1 = i then some p.2 else wrapperTargetOf rest i

/-- Model of getAugmentedListener (source lines 166-176) threaded
through the function-identity allocator: for a legacy name it returns
the suffixed full name and a FRESH wrapper identity recording the
wrapped caller listener; for any other name it passes the caller
listener through unchanged. -/
def getAugmentedListenerAlloc (nextId : Nat) (wraps : List (Nat × Nat))
    (eventName : String) (listenerId : Nat) :
    Nat × List (Nat × Nat) × String × Nat :=
  if mutationEventsList.contains eventName then
    (nextId + 1, wraps ++ [(nextId, listenerId)],
     eventName ++ polyfillEventNameExtension, nextId)
  else (nextId, wraps, eventName, listenerId)

/-- Platform addEventListener registry semantics: a (node, type,
callback, capture) entry already present is not added again. -/
def platformAdd {Node : Type} [DecidableEq Node]
    (ls : List (PlatformListener Node)) (e : PlatformListener Node) :
    List (PlatformListener Node) :=
  if e ∈ ls then ls else ls ++ [e]

/-- Platform removeEventListener registry semantics: remove the entry
matching the given (node, type, callback, capture) exactly; nothing
happens when no entry matches. -/
def platformRemove {Node : Type} [DecidableEq Node]
    (ls : List (PlatformListener Node)) (e : PlatformListener Node) :
    List (PlatformListener Node) :=
  ls.eraseP (fun x => decide (x = e))

/-- Model of the monkeypatched Element.prototype.addEventListener
(source lines 177-185): for a legacy name, enable the polyfill for the
node, derive a fresh wrapper and register it under the suffixed name;
any other name passes through to the original entry point. -/
def addEventListenerPatched {Node Root : Type} [DecidableEq Node]
    [DecidableEq Root] (rootOf : Node → Root) (s : PageListenerState Node Root)
    (el : Node) (eventName : String) (listenerId : Nat) (capture : Bool) :
    PageListenerState Node Root :=
  if mutationEventsList.contains eventName then
    { nextFunctionId :=
        (getAugmentedListenerAlloc s.nextFunctionId s.wrapperWraps eventName listenerId).1
      wrapperWraps :=
        (getAugmentedListenerAlloc s.nextFunctionId s.wrapperWraps eventName listenerId).2.1
      platformListeners :=
        platformAdd s.platformListeners
          ({ node := el
             eventType :=
               (getAugmentedListenerAlloc s.nextFunctionId s.wrapperWraps
                 eventName listenerId).2.2.1
             callbackId :=
               (getAugmentedListenerAlloc s.nextFunctionId s.wrapperWraps
                 eventName listenerId).2.2.2
             capture := capture })
      polyfill := enableMutationEventPolyfill rootOf s.polyfill el }
  else
    { s with platformListeners :=
        platformAdd s.platformListeners ⟨el, eventName, listenerId, capture⟩ }

/-- Model of the monkeypatched Element.prototype.removeEventListener
(source lines 186-195): for a legacy name, disable the polyfill for the
node, then call getAugmentedListener AGAIN — allocating a fresh wrapper
identity — and ask the platform to remove that fresh wrapper under the
suffixed name. -/
def removeEventListenerPatched {Node Root : Type} [DecidableEq Node]
    [DecidableEq Root] (rootOf : Node → Root) (s : PageListenerState Node Root)
    (el : Node) (eventName : String) (listenerId : Nat) (capture : Bool) :
    PageListenerState Node Root :=
  if mutationEventsList.contains eventName then
    { nextFunctionId :=
        (getAugmentedListenerAlloc s.nextFunctionId s.wrapperWraps eventName listenerId).1
      wrapperWraps :=
        (getAugmentedListenerAlloc s.nextFunctionId s.wrapperWraps eventName listenerId).2.1
      platformListeners :=
        platformRemove s.platformListeners
          ({ node := el
             eventType :=
               (getAugmentedListenerAlloc s.nextFunctionId s.wrapperWraps
                 eventName listenerId).2.2.1
             callbackId :=
               (getAugmentedListenerAlloc s.nextFunctionId s.wrapperWraps
                 eventName listenerId).2.2.2
             capture := capture })
      polyfill := disableMutationEventPolyfill rootOf s.polyfill el }
  else
    { s with platformListeners :=
        platformRemove s.platformListeners ⟨el, eventName, listenerId, capture⟩ }

/-- Caller listeners that run when an event of the given (already
suffixed) type is dispatched at a node: every matching platform entry
fires, wrappers forwarding to the caller listener they record. -/
def invokedCallerListeners {Node : Type} [DecidableEq Node]
    {Root : Type} (s : PageListenerState Node Root) (el : Node)
    (fullType : String) : List Nat :=
  (s.platformListeners.filter (fun e =>
      decide (e.node = el) && decide (e.eventType = fullType))).map
    (fun e =>
      match wrapperTargetOf s.wrapperWraps e.callbackId with
      | some f => f
      | none => e.callbackId)

/-- C7 scenario: caller listener 200 subscribed on element 2 and caller
listener 100 subscribed on element 1 (both under observation root 0),
then a removeEventListener for listener 100 on element 1 with the same
name, listener and options as its add. -/
def pageC7 : PageListenerState Nat Nat :=
  removeEventListenerPatched (fun _ => 0)
    (addEventListenerPatched (fun _ => 0)
      (addEventListenerPatched (fun _ => 0)
        (initialPageListenerState Nat Nat) 2 "DOMNodeInserted" 200 false)
      1 "DOMNodeInserted" 100 false)
    1 "DOMNodeInserted" 100 false

/-- C7 evaluation at the failing input: after the matched add/remove
pair for listener 100 on element 1, the wrapper installed by the add
(function identity 1) is still registered — the remove call derived a
fresh wrapper (identity 2) that matches nothing — so a synthesized
DOMNodeInserted dispatched at element 1 still invokes caller listener
100; the observation root 0 still has an active registration (count 1,
held by element 2), so such events are still synthesized.  The claim
says the matching installed listener is unregistered and listener 100
is no longer invoked. -/
theorem c7_remove_listener_bug_eval :
    invokedCallerListeners pageC7 1 ("DOMNodeInserted" ++ polyfillEventNameExtension)
      = [100]
    ∧ ({ node := 1, eventType := "DOMNodeInserted" ++ polyfillEventNameExtension,
         callbackId := 1, capture := false } : PlatformListener Nat)
        ∈ pageC7.platformListeners
    ∧ mapLookup pageC7.polyfill.documentsToObservers 0 = some 1 := by
  refine ⟨by decide, by decide, by decide⟩

end MutationEventsPolyfill
